import Mathlib

/-!
# Verification of the llm-text-to-query benchmark pipeline

A shallow embedding, in Lean 4, of the core functions of the benchmark
pipeline (validation checks, SQL extraction from model output, query
execution, the streaming client loop, the TPC-H data loader, per-query
execution, question extraction and session archival), together with
theorems settling the behavioural claims about them.

Conventions of the embedding:
* Python strings are `List Char` (for the text-scanning functions) or
  `String` (for opaque identifiers and messages).
* Directories are modelled by the multiset/list of the file names (or
  file stems) they contain; a directory that may be absent is an
  `Option`.
* Code that may raise an exception is modelled with `Except String`;
  a `try/except` block is a `match` on that value.
* Effectful loops (the data loader, the archiver) additionally produce
  an explicit trace of the operations they perform, so that ordering
  and transactionality claims can be stated.
-/

set_option autoImplicit false
set_option linter.unusedVariables false

namespace LlmTextToQuery

/-! ## Python string primitives

`\s` of Python's `re` module and `str.strip`, on the ASCII whitespace
characters. -/

def isPySpace (c : Char) : Bool :=
  c = ' ' || c = '\t' || c = '\n' || c = '\r' || c = '\x0b' || c = '\x0c'

def lstripL (s : List Char) : List Char := s.dropWhile isPySpace

def rstripL (s : List Char) : List Char := (s.reverse.dropWhile isPySpace).reverse

/-- Python `str.strip()` on a character list. -/
def stripL (s : List Char) : List Char := rstripL (lstripL s)

/-- Python `str.strip()` on a `String`. -/
def stripStr (s : String) : String := String.mk (stripL s.data)

/-! ## `benchmark/validation.py`: `check_answers_completeness`

`check_answers_completeness(answers_dir, queries_dir)` returns
`(is_complete, missing_query_ids)`.  The queries directory is modelled
by the `Finset` of stems of its `*.sql` files; the answers directory by
`none` when it does not exist and otherwise by the `Finset` of stems of
its `*.csv` files. -/

def check_answers_completeness (answersDir : Option (Finset String))
    (queryStems : Finset String) : Bool × Finset String :=
  match answersDir with
  | none => (false, queryStems)
  | some actual =>
    let missing := queryStems \ actual
    (missing.card == 0, missing)

/-- **C1.** For every queries directory containing `N` reference-SQL files
(`N > 0`) and every answers directory containing `M < N` CSV files whose
stems all match reference stems, `check_answers_completeness` returns
exactly `(false, S)` where `S` is the set of the `N - M` stems that have a
`.sql` file but no matching `.csv` file; completeness is decided by file
presence alone. -/
theorem C1_answers_cache_missing_set (expected actual : Finset String)
    (hpos : 0 < expected.card) (hsub : actual ⊆ expected)
    (hlt : actual.card < expected.card) :
    check_answers_completeness (some actual) expected = (false, expected \ actual) ∧
    (expected \ actual).card = expected.card - actual.card := by
  have hcard : (expected \ actual).card = expected.card - actual.card :=
    Finset.card_sdiff hsub
  have hne : (expected \ actual).card ≠ 0 := by omega
  refine ⟨?_, hcard⟩
  unfold check_answers_completeness
  simp only [Prod.mk.injEq]
  exact ⟨by simpa using hne, trivial⟩

/-- Concrete instance of `C1_answers_cache_missing_set`: two reference
queries, one answered, one missing. -/
theorem C1_answers_cache_missing_set_witness :
    check_answers_completeness (some {"q01"}) {"q01", "q02"} = (false, {"q02"}) := by
  have h := C1_answers_cache_missing_set {"q01", "q02"} {"q01"}
    (by decide) (by decide) (by decide)
  exact h.1.trans (by decide)

/-- **C10.** With zero reference `.sql` stems and a non-existent answers
directory, `check_answers_completeness` returns `(false, ∅)`: the boolean
flag is not equivalent to emptiness of the missing set, since an existing
answers directory with zero expected queries yields `(true, ∅)`. -/
theorem C10_completeness_flag_not_missing_emptiness :
    check_answers_completeness none (∅ : Finset String) = (false, ∅) ∧
    ∀ a : Finset String,
      check_answers_completeness (some a) (∅ : Finset String) = (true, ∅) := by
  refine ⟨rfl, ?_⟩
  intro a
  unfold check_answers_completeness
  simp [Finset.empty_sdiff]

/-! ## `database/executor.py`: `execute_sql_query`

The SQLAlchemy engine is modelled as a function from the SQL text to
either a raised exception (`Except.error` with the exception message) or
the cursor result: the ordered list of column keys (`result.keys()`)
and the rows in engine-returned order (`result.fetchall()`). -/

/-- A pandas `DataFrame` built as `pd.DataFrame(rows, columns=keys)`:
ordered column names and rows in the given order. -/
structure DataFrame where
  columns : List String
  rows : List (List String)
deriving DecidableEq

/-- The database engine boundary: executing one SQL text either raises
or yields `(keys, fetched rows)`. -/
abbrev Engine := String → Except String (List String × List (List String))

def execute_sql_query (engine : Engine) (query : String) : DataFrame ⊕ String :=
  match engine query with
  | .ok kr => .inl ⟨kr.1, kr.2⟩
  | .error e => .inr e

/-- **C3.** For every engine and every SQL text, `execute_sql_query` never
raises: on success it returns the tabular result with the engine's column
order and row order preserved, and on any exception raised during
execution it returns the underlying message as a plain error value. -/
theorem C3_executor_never_raises (engine : Engine) (query : String) :
    (∃ keys rows, engine query = .ok (keys, rows) ∧
        execute_sql_query engine query = .inl ⟨keys, rows⟩) ∨
    (∃ e, engine query = .error e ∧
        execute_sql_query engine query = .inr e) := by
  cases h : engine query with
  | ok kr =>
    exact Or.inl ⟨kr.1, kr.2, rfl, by simp [execute_sql_query, h]⟩
  | error e =>
    exact Or.inr ⟨e, rfl, by simp [execute_sql_query, h]⟩

/-! ## `benchmark/validation.py`: `check_database_ready`

The function first calls `create_engine_for_database(db_url)` — and
this call stands OUTSIDE the `try` block, so an exception raised there
(SQLAlchemy raises eagerly for, e.g., an unparseable URL or port)
propagates to the caller.  Engine construction is modelled as the
environment `mkEngine : String → Except String DbState`.  The
constructed engine's database is modelled by the (possibly raising)
list of table names returned by the inspector, and a (possibly raising)
one-row probe `SELECT 1 FROM t LIMIT 1 ... fetchone()` per table,
returning `none` when the table is empty.  An exception anywhere inside
the `try` block lands in the `except` clause, which returns `false`. -/

structure DbState where
  tableNames : Except String (List String)
  probeOne : String → Except String (Option Unit)

/-- The eight TPC-H tables, in foreign-key dependency order
(`TPCH_TABLES` of `benchmark/data_loader.py`). -/
def TPCH_TABLES : List String :=
  ["region", "nation", "part", "supplier",
   "customer", "partsupp", "orders", "lineitem"]

def strLower (s : String) : String := String.mk (s.data.map Char.toLower)

/-- The probe loop of `check_database_ready`: raise on the first probe
exception, return `false` on the first empty table, else `true`. -/
def probeAll (db : DbState) : List String → Except String Bool
  | [] => .ok true
  | t :: ts =>
    match db.probeOne t with
    | .error e => .error e
    | .ok none => .ok false
    | .ok (some _) => probeAll db ts

/-- The guarded body of `check_database_ready`, from the `inspect` call
onward: everything here sits inside the `try`, so each raising path is
caught and becomes `false`. -/
def check_database_ready_body (db : DbState) : Bool :=
  match db.tableNames with
  | .error _ => false
  | .ok names =>
    if (TPCH_TABLES.map strLower).all (fun t => (names.map strLower).contains t) then
      match probeAll db TPCH_TABLES with
      | .ok b => b
      | .error _ => false
    else false

theorem probeAll_eq_ok_true_iff (db : DbState) (ts : List String) :
    probeAll db ts = .ok true ↔ ∀ t ∈ ts, db.probeOne t = .ok (some ()) := by
  induction ts with
  | nil => simp [probeAll]
  | cons t ts ih =>
    cases h : db.probeOne t with
    | error e => simp [probeAll, h]
    | ok r =>
      cases r with
      | none => simp [probeAll, h]
      | some u => cases u; simp [probeAll, h, ih]

/-- `check_database_ready(db_url)` as the caller sees it:
`create_engine_for_database(db_url)` runs first, outside the `try`
(`validation.py` line 35), so a raising engine construction propagates
(`Except.error`); only a successfully constructed engine reaches the
guarded body. -/
def check_database_ready (mkEngine : String → Except String DbState)
    (db_url : String) : Except String Bool :=
  match mkEngine db_url with
  | .error e => .error e
  | .ok db => .ok (check_database_ready_body db)

/-- The claim's universal "never propagates an exception to its caller"
is false on the code: `create_engine_for_database` is called outside
the `try` block, so a URL on which engine construction raises makes
`check_database_ready` propagate that exception instead of returning a
boolean. -/
theorem C4_database_ready_propagation_counterexample :
    check_database_ready
      (fun _ => Except.error "Could not parse SQLAlchemy URL")
      "not a database url"
      = Except.error "Could not parse SQLAlchemy URL" := rfl

/-- **C4 (amended).** For every URL on which engine construction
succeeds, `check_database_ready` returns a boolean without raising, and
that boolean is `true` iff the inspector succeeds and the (lower-cased)
table set is a superset of the eight expected TPC-H tables, and the
one-row probe succeeds and returns a row for every one of the eight
tables; any exception inside the guarded body yields `false`.  (When
engine construction itself raises — it runs outside the `try` — the
exception propagates, per
`C4_database_ready_propagation_counterexample`.) -/
theorem C4_database_ready_iff (mkEngine : String → Except String DbState)
    (url : String) (db : DbState) (h : mkEngine url = .ok db) :
    check_database_ready mkEngine url = .ok (check_database_ready_body db) ∧
    (check_database_ready_body db = true ↔
      (∃ names, db.tableNames = .ok names ∧
        ∀ t ∈ TPCH_TABLES, strLower t ∈ names.map strLower) ∧
      ∀ t ∈ TPCH_TABLES, db.probeOne t = .ok (some ())) := by
  refine ⟨by unfold check_database_ready; rw [h], ?_⟩
  cases htn : db.tableNames with
  | error e =>
    have hfalse : check_database_ready_body db = false := by
      unfold check_database_ready_body; rw [htn]
    rw [hfalse]
    simp only [Bool.false_eq_true, false_iff]
    rintro ⟨⟨names, hn, -⟩, -⟩
    exact Except.noConfusion hn
  | ok names =>
    have hok : check_database_ready_body db =
        (if (TPCH_TABLES.map strLower).all (fun t => (names.map strLower).contains t) then
          (match probeAll db TPCH_TABLES with
            | .ok b => b
            | .error _ => false)
        else false) := by
      unfold check_database_ready_body; rw [htn]
    rw [hok]
    by_cases hall :
        ((TPCH_TABLES.map strLower).all fun t => (names.map strLower).contains t) = true
    · rw [if_pos hall]
      have hsup : ∀ t ∈ TPCH_TABLES, strLower t ∈ names.map strLower := by
        intro t ht
        have := (List.all_eq_true.mp hall) (strLower t) (List.mem_map_of_mem _ ht)
        simpa [List.contains, List.elem_iff] using this
      constructor
      · intro h
        have hp : probeAll db TPCH_TABLES = .ok true := by
          cases hpa : probeAll db TPCH_TABLES with
          | error e2 => rw [hpa] at h; simp at h
          | ok b => rw [hpa] at h; simp at h; rw [h]
        exact ⟨⟨names, rfl, hsup⟩, (probeAll_eq_ok_true_iff db TPCH_TABLES).mp hp⟩
      · rintro ⟨-, hprobes⟩
        have hp := (probeAll_eq_ok_true_iff db TPCH_TABLES).mpr hprobes
        rw [hp]
    · rw [if_neg hall]
      constructor
      · intro h; simp at h
      · rintro ⟨⟨names2, hn, hsup⟩, -⟩
        injection hn with hn
        subst hn
        exact absurd (List.all_eq_true.mpr (by
          intro x hx
          obtain ⟨t, ht, rfl⟩ := List.mem_map.mp hx
          simpa [List.contains, List.elem_iff] using hsup t ht)) hall

/-- Concrete instance of `C4_database_ready_iff`: engine construction
succeeds against a fully loaded database; the check returns
`Except.ok true` — no exception escapes. -/
theorem C4_database_ready_iff_witness :
    check_database_ready
      (fun _ => Except.ok
        (DbState.mk (Except.ok TPCH_TABLES) (fun _ => Except.ok (some ()))))
      "postgresql://user@db:5432/tpch"
      = Except.ok true := by
  have h := C4_database_ready_iff
    (fun _ => Except.ok
      (DbState.mk (Except.ok TPCH_TABLES) (fun _ => Except.ok (some ()))))
    "postgresql://user@db:5432/tpch"
    (DbState.mk (Except.ok TPCH_TABLES) (fun _ => Except.ok (some ())))
    rfl
  rw [h.1]
  have hb : check_database_ready_body
      (DbState.mk (Except.ok TPCH_TABLES) (fun _ => Except.ok (some ()))) = true := by
    decide
  rw [hb]

/-! ## `llm/service.py`: `_clean_sql_response`

The four extraction attempts of `_clean_sql_response`, each a Python
`re.search` against the accumulated model output, are embedded as
left-to-right scans over the character list.  Each `...MatchAt` function
decides whether the regex matches at the current position (returning the
relevant captured text), and the corresponding `...Search` function
scans for the leftmost matching position, exactly as `re.search` does. -/

/-- Case-insensitive (ASCII) prefix test, as used by `re.IGNORECASE`
literal and alternation matching. -/
def ciPrefix : List Char → List Char → Bool
  | [], _ => true
  | _ :: _, [] => false
  | p :: ps, c :: cs => (p.toLower == c.toLower) && ciPrefix ps cs

/-- Split a list at the leftmost occurrence of `pat`, returning the text
before and after that occurrence. -/
def splitAtFirst (pat : List Char) : List Char → Option (List Char × List Char)
  | [] => if pat.isEmpty then some ([], []) else none
  | c :: cs =>
    if pat.isPrefixOf (c :: cs) then some ([], (c :: cs).drop pat.length)
    else
      match splitAtFirst pat cs with
      | some (a, b) => some (c :: a, b)
      | none => none

def fence : List Char := ['`', '`', '`']

/-- Attempt 1 matched at one position:
the regex `(three backticks)(?:sql)?\s*(.*?)(three backticks)` with
`re.DOTALL | re.IGNORECASE`.  The optional greedy `(?:sql)?` and the
greedy `\s*` commit without altering matchability (neither `sql` nor a
whitespace character can contain a backtick), and the lazy `(.*?)` ends
at the next occurrence of the closing fence. -/
def fenceGroupAt (s : List Char) : Option (List Char) :=
  if fence.isPrefixOf s then
    let rest := s.drop 3
    let rest1 := if ciPrefix ['s', 'q', 'l'] rest then rest.drop 3 else rest
    let rest2 := rest1.dropWhile isPySpace
    match splitAtFirst fence rest2 with
    | some (g, _) => some g
    | none => none
  else none

def fenceSearch : List Char → Option (List Char)
  | [] => none
  | c :: cs =>
    match fenceGroupAt (c :: cs) with
    | some g => some g
    | none => fenceSearch cs

/-- The DML/DQL alternation `(SELECT|INSERT|UPDATE|DELETE|WITH)`. -/
def sqlKeywords : List (List Char) :=
  [['S', 'E', 'L', 'E', 'C', 'T'],
   ['I', 'N', 'S', 'E', 'R', 'T'],
   ['U', 'P', 'D', 'A', 'T', 'E'],
   ['D', 'E', 'L', 'E', 'T', 'E'],
   ['W', 'I', 'T', 'H']]

/-- Length of the alternation branch matching (case-insensitively) at
the head of `s`, tried in the regex's alternation order. -/
def kwLen (s : List Char) : Option Nat :=
  if ciPrefix ['S', 'E', 'L', 'E', 'C', 'T'] s then some 6
  else if ciPrefix ['I', 'N', 'S', 'E', 'R', 'T'] s then some 6
  else if ciPrefix ['U', 'P', 'D', 'A', 'T', 'E'] s then some 6
  else if ciPrefix ['D', 'E', 'L', 'E', 'T', 'E'] s then some 6
  else if ciPrefix ['W', 'I', 'T', 'H'] s then some 4
  else none

/-- Attempt 2 matched at one position: `(KW)\s+.*?;` with
`re.DOTALL | re.IGNORECASE`; `group(0)` runs from the keyword through
the first semicolon after the mandatory whitespace. -/
def semiMatchAt (s : List Char) : Option (List Char) :=
  match kwLen s with
  | none => none
  | some n =>
    match s.drop n with
    | [] => none
    | c :: cs =>
      if isPySpace c then
        match splitAtFirst [';'] cs with
        | some (a, _) => some (s.take n ++ c :: (a ++ [';']))
        | none => none
      else none

def semiSearch : List Char → Option (List Char)
  | [] => none
  | c :: cs =>
    match semiMatchAt (c :: cs) with
    | some g => some g
    | none => semiSearch cs

/-- Attempt 3 matched at one position: `(KW)\s+[^;]*`; `group(0)` runs
from the keyword to the first semicolon (exclusive) or end of text. -/
def noSemiMatchAt (s : List Char) : Option (List Char) :=
  match kwLen s with
  | none => none
  | some n =>
    match s.drop n with
    | [] => none
    | c :: cs =>
      if isPySpace c then
        some (s.take n ++ c :: cs.takeWhile (fun ch => ch != ';'))
      else none

def noSemiSearch : List Char → Option (List Char)
  | [] => none
  | c :: cs =>
    match noSemiMatchAt (c :: cs) with
    | some g => some g
    | none => noSemiSearch cs

/-- The trailing-commentary markers, in the order the code tries them. -/
def stopMarkers : List (List Char) :=
  [("\n\nOR ").data, ("\n\nNote:").data, ("\n\nThis ").data,
   ("\n\nIf ").data, ("\n\n--").data]

/-- The attempt-3 post-processing loop: for each marker in order, if it
occurs in the current text, truncate at its first occurrence and strip. -/
def applyStops (sql : List Char) : List Char :=
  stopMarkers.foldl
    (fun acc stop =>
      match splitAtFirst stop acc with
      | some (a, _) => stripL a
      | none => acc)
    sql

/-- `response.split("\n")[0]`. -/
def firstLine (s : List Char) : List Char := s.takeWhile (fun c => c != '\n')

/-- `first_line.upper().startswith(("SELECT", "INSERT", ...))`. -/
def startsWithKw (s : List Char) : Bool := sqlKeywords.any (fun k => ciPrefix k s)

/-- `_clean_sql_response` of `llm/service.py`: extract a single SQL
statement from the model's free-form output, or `none`. -/
def _clean_sql_response (response : List Char) : Option (List Char) :=
  if response.isEmpty then none
  else
    match fenceSearch response with
    | some g => some (stripL g)
    | none =>
      match semiSearch response with
      | some g => some (stripL g)
      | none =>
        match noSemiSearch response with
        | some g => some (applyStops (stripL g))
        | none =>
          let fl := stripL (firstLine response)
          if startsWithKw fl then some fl else none

/-- The effect of the optional `(?:sql)?` tag on the captured group:
if the text between the fences starts (case-insensitively) with `sql`,
those three characters are consumed by the tag, not captured. -/
def dropSqlTag (mid : List Char) : List Char :=
  if ciPrefix ['s', 'q', 'l'] mid then mid.drop 3 else mid

/-! ### Support lemmas for the extraction scans -/

theorem dropWhile_dropWhile (p : Char → Bool) (l : List Char) :
    (l.dropWhile p).dropWhile p = l.dropWhile p := by
  induction l with
  | nil => rfl
  | cons c t ih =>
    by_cases h : p c = true
    · simpa [List.dropWhile_cons, h] using ih
    · simp [List.dropWhile_cons, h]

theorem stripL_lstripL (s : List Char) : stripL (lstripL s) = stripL s := by
  simp [stripL, lstripL, dropWhile_dropWhile]

theorem isPrefixOf_append_self (a b : List Char) : a.isPrefixOf (a ++ b) = true := by
  induction a with
  | nil => simp [List.isPrefixOf]
  | cons c t ih => simp [List.isPrefixOf]

theorem isPrefixOf_cons_false (p x : Char) (pat cs : List Char) (h : p ≠ x) :
    (p :: pat).isPrefixOf (x :: cs) = false := by
  simp [List.isPrefixOf]
  exact fun he => absurd he h

theorem ciPrefix_append_self (k rest : List Char) : ciPrefix k (k ++ rest) = true := by
  induction k with
  | nil => rfl
  | cons c t ih => simpa [ciPrefix] using ih

theorem ciPrefix_length_le (p s : List Char) (h : ciPrefix p s = true) :
    p.length ≤ s.length := by
  induction p generalizing s with
  | nil => simp
  | cons c t ih =>
    cases s with
    | nil => exact absurd h (by simp [ciPrefix])
    | cons x xs =>
      simp only [ciPrefix, Bool.and_eq_true] at h
      simpa using ih xs h.2

/-- At a position whose first character is not a backtick, the fenced
code-block regex cannot match. -/
theorem fenceGroupAt_cons_none (x : Char) (l : List Char) (hx : x ≠ '`') :
    fenceGroupAt (x :: l) = none := by
  have hpre : fence.isPrefixOf (x :: l) = false := by
    simp [fence, List.isPrefixOf]
    exact fun h => absurd h.symm hx
  simp [fenceGroupAt, hpre]

theorem fenceSearch_append (pre rest : List Char) (h : '`' ∉ pre) :
    fenceSearch (pre ++ rest) = fenceSearch rest := by
  induction pre with
  | nil => rfl
  | cons x t ih =>
    have hx : x ≠ '`' := fun hxe => h (hxe ▸ List.mem_cons_self x t)
    have ht : '`' ∉ t := fun hmem => h (List.mem_cons_of_mem x hmem)
    simpa [fenceSearch, fenceGroupAt_cons_none x _ hx] using ih ht

/-- Leftmost-occurrence splitting at an explicit occurrence boundary:
if the first character of the pattern does not occur in `a`, then the
occurrence after `a` is the leftmost one. -/
theorem splitAtFirst_boundary (p : Char) (pat : List Char) (a b : List Char)
    (ha : p ∉ a) :
    splitAtFirst (p :: pat) (a ++ (p :: pat) ++ b) = some (a, b) := by
  induction a with
  | nil =>
    have hpre : (p :: pat).isPrefixOf (p :: (pat ++ b)) = true :=
      isPrefixOf_append_self (p :: pat) b
    have hdrop : (p :: (pat ++ b)).drop (p :: pat).length = b := by
      simp
    simp only [List.nil_append, List.cons_append]
    rw [splitAtFirst, if_pos hpre, hdrop]
  | cons x t ih =>
    have hx : p ≠ x := fun hpe => ha (hpe ▸ List.mem_cons_self x t)
    have ht : p ∉ t := fun hmem => ha (List.mem_cons_of_mem x hmem)
    have hstep := ih ht
    simp only [List.cons_append, List.append_assoc] at hstep ⊢
    rw [splitAtFirst]
    rw [isPrefixOf_cons_false p x pat _ hx]
    simp only [Bool.false_eq_true, if_false]
    rw [hstep]

/-- The optional case-insensitive `sql` tag check is unaffected by text
beyond the first backtick of the closing fence. -/
theorem ciPrefix_sql_append (mid rest : List Char) (h : '`' ∉ mid) :
    ciPrefix ['s', 'q', 'l'] (mid ++ '`' :: rest) = ciPrefix ['s', 'q', 'l'] mid := by
  match mid with
  | [] => simp [ciPrefix]
  | [c] => simp [ciPrefix]
  | [c, d] => simp [ciPrefix]
  | c :: d :: e :: t => simp [ciPrefix]

theorem fence_scan_tail (m2 post : List Char) (h : '`' ∉ m2) :
    (match splitAtFirst fence ((m2 ++ '`' :: '`' :: '`' :: post).dropWhile isPySpace) with
     | some (g, _) => some g
     | none => none) = some (m2.dropWhile isPySpace) := by
  have hstep : (m2 ++ ('`' :: '`' :: '`' :: post)).dropWhile isPySpace
      = m2.dropWhile isPySpace ++ ('`' :: '`' :: '`' :: post) := by
    rw [List.dropWhile_append]
    by_cases he : (m2.dropWhile isPySpace).isEmpty = true
    · rw [if_pos he]
      rw [List.isEmpty_iff] at he
      rw [he, List.nil_append]
      rw [List.dropWhile_cons_of_neg (by decide)]
    · rw [if_neg he]
  have hmem : '`' ∉ m2.dropWhile isPySpace :=
    fun hm => h ((List.dropWhile_sublist isPySpace).subset hm)
  have hsplit := splitAtFirst_boundary '`' ['`', '`'] (m2.dropWhile isPySpace) post hmem
  simp only [List.cons_append, List.append_assoc, List.nil_append] at hsplit
  rw [hstep]
  rw [show (fence : List Char) = '`' :: ['`', '`'] from rfl]
  rw [hsplit]

theorem fenceGroupAt_decomp (mid post : List Char) (hmid : '`' ∉ mid) :
    fenceGroupAt (fence ++ (mid ++ (fence ++ post)))
      = some ((dropSqlTag mid).dropWhile isPySpace) := by
  have hTag : '`' ∉ dropSqlTag mid := by
    intro hm
    unfold dropSqlTag at hm
    by_cases h : ciPrefix ['s', 'q', 'l'] mid = true
    · rw [if_pos h] at hm; exact hmid (List.mem_of_mem_drop hm)
    · rw [if_neg (by simpa using h)] at hm; exact hmid hm
  unfold fenceGroupAt
  rw [if_pos (isPrefixOf_append_self fence (mid ++ (fence ++ post)))]
  show (let rest1 := if ciPrefix ['s', 'q', 'l'] (mid ++ (fence ++ post)) then
          (mid ++ (fence ++ post)).drop 3 else mid ++ (fence ++ post)
        let rest2 := rest1.dropWhile isPySpace
        match splitAtFirst fence rest2 with
        | some (g, _) => some g
        | none => none) = some ((dropSqlTag mid).dropWhile isPySpace)
  rw [show ((fence ++ post : List Char)) = '`' :: '`' :: '`' :: post from rfl]
  rw [ciPrefix_sql_append mid ('`' :: '`' :: post) hmid]
  by_cases htag : ciPrefix ['s', 'q', 'l'] mid = true
  · rw [if_pos htag]
    have hlen : 3 ≤ mid.length := ciPrefix_length_le ['s', 'q', 'l'] mid htag
    rw [List.drop_append_of_le_length hlen]
    have hres : dropSqlTag mid = mid.drop 3 := by unfold dropSqlTag; rw [if_pos htag]
    rw [hres]
    exact fence_scan_tail (mid.drop 3) post (hres ▸ hTag)
  · rw [if_neg htag]
    have hres : dropSqlTag mid = mid := by
      unfold dropSqlTag; rw [if_neg htag]
    rw [hres] at hTag ⊢
    exact fence_scan_tail mid post hTag

theorem fenceSearch_cons_eq (s g : List Char) (h : fenceGroupAt s = some g)
    (hs : s ≠ []) : fenceSearch s = some g := by
  cases s with
  | nil => exact absurd rfl hs
  | cons c cs => simp [fenceSearch, h]

/-- Attempt 1, in context: on input `pre ++ fence ++ mid ++ fence ++ post`
with no backtick in `pre` or `mid`, extraction returns the (stripped)
first fenced block's contents. -/
theorem clean_fence_case (pre mid post : List Char)
    (hpre : '`' ∉ pre) (hmid : '`' ∉ mid) :
    _clean_sql_response (pre ++ fence ++ mid ++ fence ++ post)
      = some (stripL (dropSqlTag mid)) := by
  have hdecomp := fenceGroupAt_decomp mid post hmid
  have hsearch := fenceSearch_cons_eq _ _ hdecomp (by simp [fence])
  have hfs : fenceSearch (pre ++ (fence ++ (mid ++ (fence ++ post))))
      = some ((dropSqlTag mid).dropWhile isPySpace) := by
    rw [fenceSearch_append pre _ hpre, hsearch]
  have hne : (pre ++ (fence ++ (mid ++ (fence ++ post)))).isEmpty = false := by
    simp [fence]
  simp only [List.append_assoc]
  unfold _clean_sql_response
  rw [hne, hfs]
  simp only [Bool.false_eq_true, if_false]
  exact congrArg some (stripL_lstripL (dropSqlTag mid))

theorem kwLen_of_mem (kw : List Char) (hkw : kw ∈ sqlKeywords) (rest : List Char) :
    kwLen (kw ++ rest) = some kw.length := by
  fin_cases hkw <;> simp [kwLen, ciPrefix]

theorem kwLen_cons_none (x : Char) (t : List Char)
    (h : x.toLower ∉ (['s', 'i', 'u', 'd', 'w'] : List Char)) :
    kwLen (x :: t) = none := by
  have h1 : x.toLower ≠ 's' := fun he => h (by simp [he])
  have h2 : x.toLower ≠ 'i' := fun he => h (by simp [he])
  have h3 : x.toLower ≠ 'u' := fun he => h (by simp [he])
  have h4 : x.toLower ≠ 'd' := fun he => h (by simp [he])
  have h5 : x.toLower ≠ 'w' := fun he => h (by simp [he])
  simp [kwLen, ciPrefix, Ne.symm h1, Ne.symm h2, Ne.symm h3, Ne.symm h4, Ne.symm h5]

theorem semiMatchAt_cons_none (x : Char) (l : List Char)
    (h : kwLen (x :: l) = none) : semiMatchAt (x :: l) = none := by
  simp [semiMatchAt, h]

theorem noSemiMatchAt_cons_none (x : Char) (l : List Char)
    (h : kwLen (x :: l) = none) : noSemiMatchAt (x :: l) = none := by
  simp [noSemiMatchAt, h]

theorem semiSearch_append (pre rest : List Char)
    (h : ∀ c ∈ pre, c.toLower ∉ (['s', 'i', 'u', 'd', 'w'] : List Char)) :
    semiSearch (pre ++ rest) = semiSearch rest := by
  induction pre with
  | nil => rfl
  | cons x t ih =>
    have hk := kwLen_cons_none x (t ++ rest) (h x (List.mem_cons_self x t))
    have ht : ∀ c ∈ t, c.toLower ∉ (['s', 'i', 'u', 'd', 'w'] : List Char) :=
      fun c hc => h c (List.mem_cons_of_mem x hc)
    simpa [semiSearch, semiMatchAt_cons_none _ _ hk] using ih ht

theorem noSemiSearch_append (pre rest : List Char)
    (h : ∀ c ∈ pre, c.toLower ∉ (['s', 'i', 'u', 'd', 'w'] : List Char)) :
    noSemiSearch (pre ++ rest) = noSemiSearch rest := by
  induction pre with
  | nil => rfl
  | cons x t ih =>
    have hk := kwLen_cons_none x (t ++ rest) (h x (List.mem_cons_self x t))
    have ht : ∀ c ∈ t, c.toLower ∉ (['s', 'i', 'u', 'd', 'w'] : List Char) :=
      fun c hc => h c (List.mem_cons_of_mem x hc)
    simpa [noSemiSearch, noSemiMatchAt_cons_none _ _ hk] using ih ht

theorem takeWhile_all (p : Char → Bool) (l : List Char)
    (h : ∀ c ∈ l, p c = true) : l.takeWhile p = l := by
  induction l with
  | nil => rfl
  | cons c t ih =>
    rw [List.takeWhile_cons_of_pos (h c (List.mem_cons_self c t))]
    rw [ih (fun d hd => h d (List.mem_cons_of_mem c hd))]

/-- Attempt 2 matched at the keyword position: the captured text runs
from the keyword through the closing semicolon. -/
theorem semiMatchAt_decomp (kw : List Char) (hkw : kw ∈ sqlKeywords)
    (w : Char) (ws2 body post : List Char)
    (hw : isPySpace w = true) (hws2 : ∀ c ∈ ws2, isPySpace c = true)
    (hbody : ';' ∉ body) :
    semiMatchAt (kw ++ (w :: (ws2 ++ (body ++ ';' :: post))))
      = some (kw ++ (w :: (ws2 ++ (body ++ [';'])))) := by
  have hmem : ';' ∉ ws2 ++ body := by
    intro hm
    rcases List.mem_append.mp hm with hm | hm
    · have := hws2 ';' hm; simp [isPySpace] at this
    · exact hbody hm
  have hsplit := splitAtFirst_boundary ';' [] (ws2 ++ body) post hmem
  simp only [List.cons_append, List.append_assoc, List.nil_append] at hsplit
  unfold semiMatchAt
  rw [kwLen_of_mem kw hkw]
  simp only []
  rw [List.drop_left]
  simp only []
  rw [if_pos hw]
  rw [hsplit]
  simp only []
  rw [List.take_left]
  simp [List.append_assoc]

/-- Attempt 3 matched at the keyword position: the captured text runs
from the keyword to the end of the (semicolon-free) text. -/
theorem noSemiMatchAt_decomp (kw : List Char) (hkw : kw ∈ sqlKeywords)
    (w : Char) (ws2 body : List Char)
    (hw : isPySpace w = true) (hws2 : ∀ c ∈ ws2, isPySpace c = true)
    (hbody : ';' ∉ body) :
    noSemiMatchAt (kw ++ (w :: (ws2 ++ body)))
      = some (kw ++ (w :: (ws2 ++ body))) := by
  have hall : ∀ c ∈ ws2 ++ body, (c != ';') = true := by
    intro c hc
    rcases List.mem_append.mp hc with hm | hm
    · have := hws2 c hm
      simp only [bne_iff_ne, ne_eq]
      intro he; rw [he] at this; simp [isPySpace] at this
    · simp only [bne_iff_ne, ne_eq]
      intro he; rw [he] at hm; exact hbody hm
  unfold noSemiMatchAt
  rw [kwLen_of_mem kw hkw]
  simp only []
  rw [List.drop_left]
  simp only []
  rw [if_pos hw]
  rw [takeWhile_all _ _ hall]
  rw [List.take_left]

/-- Attempt 2, in context: with no earlier fence match, no
keyword-initial letter in `pre`, and a keyword followed by whitespace
and a semicolon-terminated body, extraction returns the statement
through the closing semicolon. -/
theorem clean_semi_case (pre kw ws body post : List Char)
    (hkw : kw ∈ sqlKeywords)
    (hpre : ∀ c ∈ pre, c.toLower ∉ (['s', 'i', 'u', 'd', 'w'] : List Char))
    (hws : ws ≠ []) (hwsSp : ∀ c ∈ ws, isPySpace c = true)
    (hbody : ';' ∉ body)
    (hfence : fenceSearch (pre ++ (kw ++ (ws ++ (body ++ ';' :: post)))) = none) :
    _clean_sql_response (pre ++ (kw ++ (ws ++ (body ++ ';' :: post))))
      = some (stripL (kw ++ (ws ++ (body ++ [';'])))) := by
  obtain ⟨w, ws2, rfl⟩ : ∃ w ws2, ws = w :: ws2 := by
    cases ws with
    | nil => exact absurd rfl hws
    | cons a b => exact ⟨a, b, rfl⟩
  have hw : isPySpace w = true := hwsSp w (List.mem_cons_self _ _)
  have hws2 : ∀ c ∈ ws2, isPySpace c = true :=
    fun c hc => hwsSp c (List.mem_cons_of_mem _ hc)
  obtain ⟨k0, ktl, hk⟩ : ∃ k0 ktl, kw = k0 :: ktl := by
    fin_cases hkw <;> exact ⟨_, _, rfl⟩
  subst hk
  have hmatch := semiMatchAt_decomp (k0 :: ktl) hkw w ws2 body post hw hws2 hbody
  have hmatch2 : semiMatchAt (k0 :: (ktl ++ (w :: (ws2 ++ (body ++ ';' :: post)))))
      = some ((k0 :: ktl) ++ (w :: (ws2 ++ (body ++ [';'])))) := hmatch
  have hsemi : semiSearch (pre ++ ((k0 :: ktl) ++ (w :: ws2 ++ (body ++ ';' :: post))))
      = some ((k0 :: ktl) ++ (w :: (ws2 ++ (body ++ [';'])))) := by
    rw [semiSearch_append pre _ hpre]
    show semiSearch (k0 :: (ktl ++ (w :: (ws2 ++ (body ++ ';' :: post))))) = _
    rw [semiSearch, hmatch2]
  have hne : (pre ++ ((k0 :: ktl) ++ (w :: ws2 ++ (body ++ ';' :: post)))).isEmpty
      = false := by simp
  unfold _clean_sql_response
  rw [hne]
  simp only [Bool.false_eq_true, if_false]
  rw [hfence]
  simp only []
  rw [hsemi]
  simp [List.cons_append, List.append_assoc]

/-- Attempt 3, in context: like attempt 2 but with no semicolon at all;
the captured text runs to end of input and is post-processed by the
trailing-commentary truncation loop. -/
theorem clean_noSemi_case (pre kw ws body : List Char)
    (hkw : kw ∈ sqlKeywords)
    (hpre : ∀ c ∈ pre, c.toLower ∉ (['s', 'i', 'u', 'd', 'w'] : List Char))
    (hws : ws ≠ []) (hwsSp : ∀ c ∈ ws, isPySpace c = true)
    (hbody : ';' ∉ body)
    (hfence : fenceSearch (pre ++ (kw ++ (ws ++ body))) = none)
    (hsemi : semiSearch (pre ++ (kw ++ (ws ++ body))) = none) :
    _clean_sql_response (pre ++ (kw ++ (ws ++ body)))
      = some (applyStops (stripL (kw ++ (ws ++ body)))) := by
  obtain ⟨w, ws2, rfl⟩ : ∃ w ws2, ws = w :: ws2 := by
    cases ws with
    | nil => exact absurd rfl hws
    | cons a b => exact ⟨a, b, rfl⟩
  have hw : isPySpace w = true := hwsSp w (List.mem_cons_self _ _)
  have hws2 : ∀ c ∈ ws2, isPySpace c = true :=
    fun c hc => hwsSp c (List.mem_cons_of_mem _ hc)
  obtain ⟨k0, ktl, hk⟩ : ∃ k0 ktl, kw = k0 :: ktl := by
    fin_cases hkw <;> exact ⟨_, _, rfl⟩
  subst hk
  have hmatch := noSemiMatchAt_decomp (k0 :: ktl) hkw w ws2 body hw hws2 hbody
  have hmatch2 : noSemiMatchAt (k0 :: (ktl ++ (w :: (ws2 ++ body))))
      = some ((k0 :: ktl) ++ (w :: (ws2 ++ body))) := hmatch
  have hnosemi : noSemiSearch (pre ++ ((k0 :: ktl) ++ (w :: ws2 ++ body)))
      = some ((k0 :: ktl) ++ (w :: (ws2 ++ body))) := by
    rw [noSemiSearch_append pre _ hpre]
    show noSemiSearch (k0 :: (ktl ++ (w :: (ws2 ++ body)))) = _
    rw [noSemiSearch, hmatch2]
  have hne : (pre ++ ((k0 :: ktl) ++ (w :: ws2 ++ body))).isEmpty = false := by simp
  unfold _clean_sql_response
  rw [hne]
  simp only [Bool.false_eq_true, if_false]
  rw [hfence]
  simp only []
  rw [hsemi]
  simp only []
  rw [hnosemi]
  simp [List.cons_append, List.append_assoc]

/-- Attempt 4, in context: when all three regex attempts fail, the
result is the stripped first line iff it starts with a keyword. -/
theorem clean_fallback_case (response : List Char) (hne : response ≠ [])
    (h1 : fenceSearch response = none) (h2 : semiSearch response = none)
    (h3 : noSemiSearch response = none) :
    _clean_sql_response response =
      (if startsWithKw (stripL (firstLine response)) then
        some (stripL (firstLine response)) else none) := by
  unfold _clean_sql_response
  rw [List.isEmpty_eq_false.mpr hne]
  simp only [Bool.false_eq_true, if_false]
  rw [h1]
  simp only []
  rw [h2]
  simp only []
  rw [h3]

/-- **C2.** SQL extraction follows the stated precedence.
(1) A fenced code block wins: for any input `pre ++ fence ++ mid ++ fence
++ post` whose prefix and block contents contain no backtick — `post` is
arbitrary and may contain a bare `SELECT` statement — the result is the
first fenced block's contents (with the optional case-insensitive `sql`
tag consumed and surrounding whitespace stripped), never anything taken
from `post`.  (2) Otherwise, the first statement beginning with one of
SELECT/INSERT/UPDATE/DELETE/WITH runs to the closing semicolon.
(3) Otherwise, the same keyword match runs to end of text and is
truncated by the trailing-commentary markers.  (4) Otherwise, the first
line is returned iff it itself starts with one of those keywords, and on
empty input the result is `none`. -/
theorem C2_sql_extraction_precedence :
    (∀ pre mid post : List Char, '`' ∉ pre → '`' ∉ mid →
      _clean_sql_response (pre ++ fence ++ mid ++ fence ++ post)
        = some (stripL (dropSqlTag mid))) ∧
    (∀ pre kw ws body post : List Char,
      kw ∈ sqlKeywords →
      (∀ c ∈ pre, c.toLower ∉ (['s', 'i', 'u', 'd', 'w'] : List Char)) →
      ws ≠ [] → (∀ c ∈ ws, isPySpace c = true) → ';' ∉ body →
      fenceSearch (pre ++ (kw ++ (ws ++ (body ++ ';' :: post)))) = none →
      _clean_sql_response (pre ++ (kw ++ (ws ++ (body ++ ';' :: post))))
        = some (stripL (kw ++ (ws ++ (body ++ [';']))))) ∧
    (∀ pre kw ws body : List Char,
      kw ∈ sqlKeywords →
      (∀ c ∈ pre, c.toLower ∉ (['s', 'i', 'u', 'd', 'w'] : List Char)) →
      ws ≠ [] → (∀ c ∈ ws, isPySpace c = true) → ';' ∉ body →
      fenceSearch (pre ++ (kw ++ (ws ++ body))) = none →
      semiSearch (pre ++ (kw ++ (ws ++ body))) = none →
      _clean_sql_response (pre ++ (kw ++ (ws ++ body)))
        = some (applyStops (stripL (kw ++ (ws ++ body))))) ∧
    (∀ response : List Char, response ≠ [] →
      fenceSearch response = none → semiSearch response = none →
      noSemiSearch response = none →
      _clean_sql_response response =
        (if startsWithKw (stripL (firstLine response)) then
          some (stripL (firstLine response)) else none)) ∧
    _clean_sql_response [] = none := by
  refine ⟨?_, ?_, ?_, ?_, rfl⟩
  · intro pre mid post hpre hmid
    exact clean_fence_case pre mid post hpre hmid
  · intro pre kw ws body post hkw hpre hws hwsSp hbody hfence
    exact clean_semi_case pre kw ws body post hkw hpre hws hwsSp hbody hfence
  · intro pre kw ws body hkw hpre hws hwsSp hbody hfence hsemi
    exact clean_noSemi_case pre kw ws body hkw hpre hws hwsSp hbody hfence hsemi
  · intro response hne h1 h2 h3
    exact clean_fallback_case response hne h1 h2 h3

/-- Concrete instances of the four precedence cases of
`C2_sql_extraction_precedence`, including a fenced block followed by a
bare `SELECT` statement (the fenced contents win). -/
theorem C2_sql_extraction_precedence_witness :
    _clean_sql_response ("Use:\n```sql\nSELECT 1;\n``` or SELECT 2;".data)
      = some ("SELECT 1;".data) ∧
    _clean_sql_response ("ok: SELECT x FROM t; thanks".data)
      = some ("SELECT x FROM t;".data) ∧
    _clean_sql_response ("ok: SELECT x FROM t\n\nNote: no terminator".data)
      = some ("SELECT x FROM t".data) ∧
    _clean_sql_response ("nothing to see".data) = none := by
  refine ⟨?_, ?_, ?_, ?_⟩
  · have h := C2_sql_extraction_precedence.1 ("Use:\n".data)
      ("sql\nSELECT 1;\n".data) (" or SELECT 2;".data) (by decide) (by decide)
    exact h.trans (by decide)
  · have h := C2_sql_extraction_precedence.2.1 ("ok: ".data)
      ("SELECT".data) (" ".data) ("x FROM t".data) (" thanks".data)
      (by decide) (by decide) (by decide) (by decide) (by decide) (by decide)
    exact h.trans (by decide)
  · have h := C2_sql_extraction_precedence.2.2.1 ("ok: ".data)
      ("SELECT".data) (" ".data) ("x FROM t\n\nNote: no terminator".data)
      (by decide) (by decide) (by decide) (by decide) (by decide)
      (by decide) (by decide)
    exact h.trans (by decide)
  · have h := C2_sql_extraction_precedence.2.2.2.1 ("nothing to see".data)
      (by decide) (by decide) (by decide) (by decide)
    exact h.trans (by decide)

/-! ## `llm/service.py`: `get_sql_from_llm_streaming`

The streaming generator is embedded from the point where the HTTP
response status is known.  The backend's body is the list of lines
delivered by `response.iter_lines()`: an empty keep-alive line, a line
on which `json.loads` fails, or a parsed fragment carrying its
`response` token text (possibly empty) and `done` flag.  The stateful
`stop_check` callable is modelled as a pure predicate on the state it
can observe between lines — the number of tokens received so far.  The
generator's yields become a list of events; the boolean result records
whether the out-of-band `abort_ollama_generation` stop request was
issued.  (The performance metrics carried by the `done` event are not
modelled.) -/

inductive StreamLine
  | empty
  | malformed
  | payload (tok : List Char) (done : Bool)
deriving DecidableEq

inductive StreamEvent
  | token (content : List Char)
  | done (full : List Char) (sql : Option (List Char))
  | stopped (text : List Char)
  | error (msg : List Char)
deriving DecidableEq

/-- `if stop_check and stop_check():` — evaluated before each line. -/
def checkStop (stopCheck : Option (Nat → Bool)) (count : Nat) : Bool :=
  match stopCheck with
  | some f => f count
  | none => false

/-- The `for line in response.iter_lines()` loop with the accumulated
`full_response` and the token count the stop predicate observes. -/
def streamLoop (stopCheck : Option (Nat → Bool)) :
    List Char → Nat → List StreamLine → List StreamEvent × Bool
  | full, _, [] =>
    ([StreamEvent.done full (_clean_sql_response full)], false)
  | full, count, l :: ls =>
    if checkStop stopCheck count then
      ([StreamEvent.stopped full], true)
    else
      match l with
      | .empty => streamLoop stopCheck full count ls
      | .malformed => streamLoop stopCheck full count ls
      | .payload tok doneFlag =>
        if tok.isEmpty then
          if doneFlag then
            ([StreamEvent.done full (_clean_sql_response full)], false)
          else streamLoop stopCheck full count ls
        else
          if doneFlag then
            ([StreamEvent.token tok,
              StreamEvent.done (full ++ tok) (_clean_sql_response (full ++ tok))],
             false)
          else
            let r := streamLoop stopCheck (full ++ tok) (count + 1) ls
            (StreamEvent.token tok :: r.1, r.2)

/-- `get_sql_from_llm_streaming`, after the request returned `status`
and (for a 200) the stream delivers `lines`. -/
def get_sql_from_llm_streaming (status : Nat) (lines : List StreamLine)
    (stopCheck : Option (Nat → Bool)) : List StreamEvent × Bool :=
  if status = 404 then ([StreamEvent.error ("Model not found.".data)], false)
  else if status ≠ 200 then ([StreamEvent.error ("LLM API error".data)], false)
  else streamLoop stopCheck [] 0 lines

/-- The nonempty tokens carried by a list of stream lines, in order. -/
def lineToks : List StreamLine → List (List Char)
  | [] => []
  | .payload tok _ :: ls => if tok.isEmpty then lineToks ls else tok :: lineToks ls
  | .empty :: ls => lineToks ls
  | .malformed :: ls => lineToks ls

theorem streamLoop_stop (f : Nat → Bool) (K : Nat)
    (hf : ∀ n, f n = true ↔ K ≤ n)
    (pre rest : List StreamLine) (hrest : rest ≠ [])
    (hnodone : ∀ tok dn, StreamLine.payload tok dn ∈ pre → dn = false) :
    ∀ full count, count + (lineToks pre).length = K →
    streamLoop (some f) full count (pre ++ rest)
      = ((lineToks pre).map StreamEvent.token
          ++ [StreamEvent.stopped (full ++ (lineToks pre).flatten)], true) := by
  induction pre with
  | nil =>
    intro full count hc
    obtain ⟨r, rs, rfl⟩ : ∃ r rs, rest = r :: rs := by
      cases rest with
      | nil => exact absurd rfl hrest
      | cons a b => exact ⟨a, b, rfl⟩
    have hstop : checkStop (some f) count = true := by
      show f count = true
      rw [hf]
      simp [lineToks] at hc
      omega
    simp only [List.nil_append]
    rw [streamLoop.eq_def]
    simp only []
    rw [if_pos hstop]
    simp [lineToks]
  | cons l ls ih =>
    intro full count hc
    have hls : ∀ tok dn, StreamLine.payload tok dn ∈ ls → dn = false :=
      fun tok dn hm => hnodone tok dn (List.mem_cons_of_mem l hm)
    simp only [List.cons_append]
    cases l with
    | empty =>
      have hc2 : count + (lineToks ls).length = K := by
        simpa [lineToks] using hc
      by_cases hstop : f count = true
      · have hK : K ≤ count := (hf count).mp hstop
        have hzero : lineToks ls = [] := by
          rw [← List.length_eq_zero]; omega
        rw [streamLoop, if_pos (show checkStop (some f) count = true from hstop)]
        simp [lineToks, hzero]
      · rw [streamLoop,
          if_neg (by simp [checkStop, hstop])]
        simpa [lineToks] using ih hls full count hc2
    | malformed =>
      have hc2 : count + (lineToks ls).length = K := by
        simpa [lineToks] using hc
      by_cases hstop : f count = true
      · have hK : K ≤ count := (hf count).mp hstop
        have hzero : lineToks ls = [] := by
          rw [← List.length_eq_zero]; omega
        rw [streamLoop, if_pos (show checkStop (some f) count = true from hstop)]
        simp [lineToks, hzero]
      · rw [streamLoop,
          if_neg (by simp [checkStop, hstop])]
        simpa [lineToks] using ih hls full count hc2
    | payload tok dn =>
      have hdn : dn = false := hnodone tok dn (List.mem_cons_self _ _)
      subst hdn
      by_cases htokE : tok.isEmpty = true
      · have hc2 : count + (lineToks ls).length = K := by
          simpa [lineToks, htokE] using hc
        by_cases hstop : f count = true
        · have hK : K ≤ count := (hf count).mp hstop
          have hzero : lineToks ls = [] := by
            rw [← List.length_eq_zero]; omega
          rw [streamLoop, if_pos (show checkStop (some f) count = true from hstop)]
          simp [lineToks, htokE, hzero]
        · rw [streamLoop,
            if_neg (by simp [checkStop, hstop])]
          simp only [htokE, if_true, if_false, Bool.false_eq_true]
          simpa [lineToks, htokE] using ih hls full count hc2
      · have htokE2 : tok.isEmpty = false := by
          cases he : tok.isEmpty with
          | false => rfl
          | true => exact absurd he htokE
        have hc2 : (count + 1) + (lineToks ls).length = K := by
          have : lineToks (StreamLine.payload tok false :: ls)
              = tok :: lineToks ls := by simp [lineToks, htokE2]
          rw [this] at hc
          simp at hc
          omega
        have hcount : f count = false := by
          cases hb : f count with
          | false => rfl
          | true =>
            have := (hf count).mp hb
            omega
        rw [streamLoop, if_neg (by simp [checkStop, hcount])]
        simp only [htokE2, Bool.false_eq_true, if_false]
        rw [ih hls (full ++ tok) (count + 1) hc2]
        simp [lineToks, htokE2, List.append_assoc]

/-- **C5.** With a cancellation predicate that becomes true once `K`
tokens have been received, and a stream whose prefix delivers exactly
those `K` tokens with no terminal fragment yet and at least one further
line pending, the streaming client emits exactly the `K` token events
followed by one terminal `stopped` event carrying the accumulated
partial text, issues the out-of-band stop request, and never touches the
remaining lines (`rest` does not occur in the result): the predicate is
re-evaluated at every line boundary, so the stream terminates by token
`K + 1`. -/
theorem C5_cancellation_latency (f : Nat → Bool) (K : Nat)
    (pre rest : List StreamLine)
    (hf : ∀ n, f n = true ↔ K ≤ n)
    (htok : (lineToks pre).length = K)
    (hnodone : ∀ tok dn, StreamLine.payload tok dn ∈ pre → dn = false)
    (hrest : rest ≠ []) :
    get_sql_from_llm_streaming 200 (pre ++ rest) (some f)
      = ((lineToks pre).map StreamEvent.token
          ++ [StreamEvent.stopped (lineToks pre).flatten], true) := by
  unfold get_sql_from_llm_streaming
  rw [if_neg (by omega), if_neg (by omega)]
  have h := streamLoop_stop f K hf pre rest hrest hnodone [] 0 (by omega)
  simpa using h

/-- Concrete instance of `C5_cancellation_latency`: the stop signal
arrives after the second token; the third token is never consumed. -/
theorem C5_cancellation_latency_witness :
    get_sql_from_llm_streaming 200
      [StreamLine.payload ("SELECT".data) false,
       StreamLine.empty,
       StreamLine.payload (" 1".data) false,
       StreamLine.payload (";".data) false,
       StreamLine.payload [] true]
      (some (fun n => decide (2 ≤ n)))
      = ([StreamEvent.token ("SELECT".data), StreamEvent.token (" 1".data),
          StreamEvent.stopped ("SELECT 1".data)], true) := by
  have h := C5_cancellation_latency (fun n => decide (2 ≤ n)) 2
    [StreamLine.payload ("SELECT".data) false, StreamLine.empty,
     StreamLine.payload (" 1".data) false]
    [StreamLine.payload (";".data) false, StreamLine.payload [] true]
    (fun n => by simp)
    (by decide)
    (by
      intro tok dn hm
      simp at hm
      rcases hm with ⟨-, h⟩ | ⟨-, h⟩ <;> exact h)
    (by decide)
  exact h.trans (by decide)

/-! ## `benchmark/pipeline.py`: `step_7_execute_generated_queries`

The generated-queries directory is the list of `(stem, file text)`
pairs of its `*.sql` files (in the iteration order of the sorted glob);
`existing` is the list of stems of the `*.csv` files already in the
answers directory (the cache).  The function's writes are returned as
the list of `(file name, CSV contents)` pairs. -/

/-- A CSV answer file as written by `DataFrame.to_csv(index=False)`:
the header row and the data rows. -/
structure CsvFile where
  header : List String
  rows : List (List String)
deriving DecidableEq

/-- The CSV written for one executed query: the tabular result on
success, or the reserved single-column `ERROR` marker with the error
message as the single data row. -/
def answerCsv (res : DataFrame ⊕ String) : CsvFile :=
  match res with
  | .inl df => ⟨df.columns, df.rows⟩
  | .inr e => ⟨["ERROR"], [[e]]⟩

def step_7_execute_generated_queries (engine : Engine)
    (existing : List String) (files : List (String × String)) :
    List (String × CsvFile) :=
  (files.filter (fun f => !(existing.contains f.1))).map
    (fun f => (f.1 ++ ".csv", answerCsv (execute_sql_query engine (stripStr f.2))))

/-- **C6.** In stage 7, every processed (non-cached) generated SQL file
produces an output CSV keyed by its identifier — the outputs are exactly
one CSV per processed file, so a per-query error never aborts the rest
of the batch — and on a per-query execution error the written CSV is the
single-row `ERROR` marker carrying the message, instead of no output. -/
theorem C6_step7_always_writes_csv (engine : Engine)
    (existing : List String) (files : List (String × String)) :
    (step_7_execute_generated_queries engine existing files).map Prod.fst
      = (files.filter (fun f => !(existing.contains f.1))).map
          (fun f => f.1 ++ ".csv") ∧
    (∀ qid content, (qid, content) ∈ files → existing.contains qid = false →
      (∀ e, engine (stripStr content) = .error e →
        (qid ++ ".csv", CsvFile.mk ["ERROR"] [[e]])
          ∈ step_7_execute_generated_queries engine existing files) ∧
      (∀ keys rows, engine (stripStr content) = .ok (keys, rows) →
        (qid ++ ".csv", CsvFile.mk keys rows)
          ∈ step_7_execute_generated_queries engine existing files)) := by
  constructor
  · rw [step_7_execute_generated_queries, List.map_map]
    rfl
  · intro qid content hmem hskip
    have hfil : (qid, content) ∈ files.filter (fun f => !(existing.contains f.1)) :=
      List.mem_filter.mpr ⟨hmem, by
        show (!(existing.contains qid)) = true
        rw [hskip]
        rfl⟩
    constructor
    · intro e he
      have : ((qid, content).1 ++ ".csv",
          answerCsv (execute_sql_query engine (stripStr (qid, content).2)))
          ∈ step_7_execute_generated_queries engine existing files :=
        List.mem_map_of_mem _ hfil
      simpa [execute_sql_query, he, answerCsv] using this
    · intro keys rows hk
      have : ((qid, content).1 ++ ".csv",
          answerCsv (execute_sql_query engine (stripStr (qid, content).2)))
          ∈ step_7_execute_generated_queries engine existing files :=
        List.mem_map_of_mem _ hfil
      simpa [execute_sql_query, hk, answerCsv] using this

/-- Concrete instance of `C6_step7_always_writes_csv`: one succeeding
query and one failing query, both producing CSVs. -/
theorem C6_step7_always_writes_csv_witness :
    ("q02" ++ ".csv", CsvFile.mk ["ERROR"] [["syntax error"]])
      ∈ step_7_execute_generated_queries
          (fun q => if q = "SELECT 1" then .ok (["one"], [["1"]])
                    else .error "syntax error")
          []
          [("q01", " SELECT 1 "), ("q02", "SELEKT 2")] ∧
    ("q01" ++ ".csv", CsvFile.mk ["one"] [["1"]])
      ∈ step_7_execute_generated_queries
          (fun q => if q = "SELECT 1" then .ok (["one"], [["1"]])
                    else .error "syntax error")
          []
          [("q01", " SELECT 1 "), ("q02", "SELEKT 2")] := by
  constructor
  · exact ((C6_step7_always_writes_csv _ [] _).2 "q02" "SELEKT 2"
      (by decide) (by decide)).1 "syntax error" (by rfl)
  · exact ((C6_step7_always_writes_csv _ [] _).2 "q01" " SELECT 1 "
      (by decide) (by decide)).2 ["one"] [["1"]] (by rfl)

/-! ## `benchmark/data_loader.py`: `load_tpch_data`

The loader walks `TPCH_TABLES` in order; for each table it opens a
transaction (`with engine.begin()`), optionally truncates, streams the
file into `COPY`, and commits on normal exit of the `with` block — or
rolls back and raises when the `COPY` (or the stripping subprocess)
fails.  The environment is the per-table `COPY` outcome; the embedding
returns the trace of transaction events together with the function
result (the per-table row counts, or the raised error). -/

inductive TraceEvent
  | beginTx (table : String)
  | truncate (table : String)
  | copy (table : String) (rows : Nat)
  | commitTx (table : String)
  | rollbackTx (table : String)
deriving DecidableEq

def tableOf : TraceEvent → String
  | .beginTx t => t
  | .truncate t => t
  | .copy t _ => t
  | .commitTx t => t
  | .rollbackTx t => t

/-- The environment: per-table `COPY` row count, or raised error. -/
abbrev CopyOutcome := String → Except String Nat

def loadTables (o : CopyOutcome) (truncFlag : Bool) :
    List String → List TraceEvent × Except String (List (String × Nat))
  | [] => ([], .ok [])
  | t :: ts =>
    match o t with
    | .error e =>
      (TraceEvent.beginTx t ::
        ((if truncFlag then [TraceEvent.truncate t] else []) ++
          [TraceEvent.rollbackTx t]),
       .error ("COPY failed for " ++ t ++ ": " ++ e))
    | .ok n =>
      let r := loadTables o truncFlag ts
      (TraceEvent.beginTx t ::
        ((if truncFlag then [TraceEvent.truncate t] else []) ++
          (TraceEvent.copy t n :: TraceEvent.commitTx t :: r.1)),
       r.2.map (fun l => (t, n) :: l))

/-- `load_tpch_data`: directory and `.tbl` pre-checks, then the load
loop over the eight tables. -/
def load_tpch_data (dirExists : Bool) (present : String → Bool)
    (o : CopyOutcome) (truncFlag : Bool) :
    List TraceEvent × Except String (List (String × Nat)) :=
  if !dirExists then ([], .error "Data directory not found")
  else if (TPCH_TABLES.filter (fun t => !(present t))) ≠ [] then
    ([], .error "Missing .tbl files")
  else loadTables o truncFlag TPCH_TABLES

/-- `e1` occurs (strictly) before every occurrence of `e2` in `tr`. -/
def occursBefore (e1 e2 : TraceEvent) (tr : List TraceEvent) : Prop :=
  ∀ x y, tr = x ++ e2 :: y → e1 ∈ x

theorem cons_eq_append_cons {α : Type} {e0 e2 : α} {tr x y : List α}
    (hne : e0 ≠ e2) (h : e0 :: tr = x ++ e2 :: y) :
    ∃ x2, x = e0 :: x2 ∧ tr = x2 ++ e2 :: y := by
  cases x with
  | nil =>
    simp only [List.nil_append, List.cons.injEq] at h
    exact absurd h.1 hne
  | cons hd tl =>
    simp only [List.cons_append, List.cons.injEq] at h
    exact ⟨tl, by rw [h.1], h.2⟩

theorem block_decomp (e2 : TraceEvent) (evs tr x y : List TraceEvent)
    (hevs : ∀ e ∈ evs, e ≠ e2) (h : evs ++ tr = x ++ e2 :: y) :
    ∃ x2, x = evs ++ x2 ∧ tr = x2 ++ e2 :: y := by
  induction evs generalizing x with
  | nil =>
    refine ⟨x, by simp, ?_⟩
    simpa using h
  | cons e es ih =>
    have h2 : e :: (es ++ tr) = x ++ e2 :: y := by simpa using h
    obtain ⟨x2, hx, htr⟩ :=
      cons_eq_append_cons (hevs e (List.mem_cons_self _ _)) h2
    obtain ⟨x3, hx2, htr2⟩ :=
      ih x2 (fun d hd => hevs d (List.mem_cons_of_mem _ hd)) htr
    exact ⟨x3, by rw [hx, hx2]; rfl, htr2⟩

theorem mem_loadTables_tableOf (o : CopyOutcome) (tf : Bool)
    (ts : List String) (e : TraceEvent) (he : e ∈ (loadTables o tf ts).1) :
    tableOf e ∈ ts := by
  induction ts with
  | nil =>
    rw [loadTables.eq_def] at he
    simp at he
  | cons t ts ih =>
    rw [loadTables.eq_def] at he
    simp only [] at he
    cases ho : o t with
    | error msg =>
      rw [ho] at he
      cases tf with
      | false =>
        simp at he
        rcases he with rfl | rfl <;> simp [tableOf]
      | true =>
        simp at he
        rcases he with rfl | rfl | rfl <;> simp [tableOf]
    | ok n =>
      rw [ho] at he
      cases tf with
      | false =>
        simp at he
        rcases he with rfl | rfl | rfl | hmem
        · simp [tableOf]
        · simp [tableOf]
        · simp [tableOf]
        · exact List.mem_cons_of_mem _ (ih hmem)
      | true =>
        simp at he
        rcases he with rfl | rfl | rfl | rfl | hmem
        · simp [tableOf]
        · simp [tableOf]
        · simp [tableOf]
        · simp [tableOf]
        · exact List.mem_cons_of_mem _ (ih hmem)

/-- In any run of the load loop, the transaction of a table placed
earlier in the load list commits before the transaction of any table
placed later ever begins. -/
theorem loadTables_commit_before (o : CopyOutcome) (tf : Bool)
    (l1 : List String) (a : String) (l2 : List String) (b : String)
    (hb2 : b ∈ l2) (hb1 : b ∉ l1) (hba : b ≠ a) :
    occursBefore (TraceEvent.commitTx a) (TraceEvent.beginTx b)
      (loadTables o tf (l1 ++ a :: l2)).1 := by
  induction l1 with
  | nil =>
    intro x y h
    simp only [List.nil_append] at h
    rw [loadTables.eq_def] at h
    simp only [] at h
    cases ho : o a with
    | error e =>
      rw [ho] at h
      simp only [] at h
      exfalso
      have hmem : TraceEvent.beginTx b ∈ x ++ TraceEvent.beginTx b :: y := by simp
      rw [← h] at hmem
      cases tf <;> simp at hmem <;> exact hba hmem
    | ok n =>
      rw [ho] at h
      simp only [] at h
      cases tf with
      | false =>
        obtain ⟨x2, hx, htr⟩ := block_decomp (TraceEvent.beginTx b)
          [TraceEvent.beginTx a, TraceEvent.copy a n]
          (TraceEvent.commitTx a :: (loadTables o false l2).1) x y
          (by
            intro e he
            simp at he
            rcases he with rfl | rfl
            · simpa using Ne.symm hba
            · simp)
          (by simpa using h)
        obtain ⟨x3, hx2, -⟩ := cons_eq_append_cons
          (show TraceEvent.commitTx a ≠ TraceEvent.beginTx b by simp) htr
        rw [hx, hx2]
        simp
      | true =>
        obtain ⟨x2, hx, htr⟩ := block_decomp (TraceEvent.beginTx b)
          [TraceEvent.beginTx a, TraceEvent.truncate a, TraceEvent.copy a n]
          (TraceEvent.commitTx a :: (loadTables o true l2).1) x y
          (by
            intro e he
            simp at he
            rcases he with rfl | rfl | rfl
            · simpa using Ne.symm hba
            · simp
            · simp)
          (by simpa using h)
        obtain ⟨x3, hx2, -⟩ := cons_eq_append_cons
          (show TraceEvent.commitTx a ≠ TraceEvent.beginTx b by simp) htr
        rw [hx, hx2]
        simp
  | cons c l1x ih =>
    intro x y h
    simp only [List.cons_append] at h
    rw [loadTables.eq_def] at h
    simp only [] at h
    have hbc : b ≠ c := fun he => hb1 (he ▸ List.mem_cons_self c l1x)
    have hb1x : b ∉ l1x := fun hm => hb1 (List.mem_cons_of_mem _ hm)
    cases ho : o c with
    | error e =>
      rw [ho] at h
      simp only [] at h
      exfalso
      have hmem : TraceEvent.beginTx b ∈ x ++ TraceEvent.beginTx b :: y := by simp
      rw [← h] at hmem
      cases tf <;> simp at hmem <;> exact hbc hmem
    | ok n =>
      rw [ho] at h
      simp only [] at h
      cases tf with
      | false =>
        obtain ⟨x2, hx, htr⟩ := block_decomp (TraceEvent.beginTx b)
          [TraceEvent.beginTx c, TraceEvent.copy c n, TraceEvent.commitTx c]
          (loadTables o false (l1x ++ a :: l2)).1 x y
          (by
            intro e he
            simp at he
            rcases he with rfl | rfl | rfl
            · simpa using Ne.symm hbc
            · simp
            · simp)
          (by simpa using h)
        have hca := ih hb1x x2 y htr
        rw [hx]
        simp only [List.mem_append]
        exact Or.inr hca
      | true =>
        obtain ⟨x2, hx, htr⟩ := block_decomp (TraceEvent.beginTx b)
          [TraceEvent.beginTx c, TraceEvent.truncate c, TraceEvent.copy c n,
           TraceEvent.commitTx c]
          (loadTables o true (l1x ++ a :: l2)).1 x y
          (by
            intro e he
            simp at he
            rcases he with rfl | rfl | rfl | rfl
            · simpa using Ne.symm hbc
            · simp
            · simp
            · simp)
          (by simpa using h)
        have hca := ih hb1x x2 y htr
        rw [hx]
        simp only [List.mem_append]
        exact Or.inr hca

/-- A rollback event can only be the very last event of the trace; the
rolled-back table is never committed, and every other table either has
its transaction committed or never began — one transaction per table,
so a mid-table failure undoes only that table. -/
theorem loadTables_rollback (o : CopyOutcome) (tf : Bool) (ts : List String)
    (hnd : ts.Nodup) :
    ∀ t x y, (loadTables o tf ts).1 = x ++ TraceEvent.rollbackTx t :: y →
      y = [] ∧ TraceEvent.commitTx t ∉ (loadTables o tf ts).1 ∧
      ∀ t2, t2 ≠ t →
        (TraceEvent.commitTx t2 ∈ (loadTables o tf ts).1 ∨
         TraceEvent.beginTx t2 ∉ (loadTables o tf ts).1) := by
  induction ts with
  | nil =>
    intro t x y h
    rw [loadTables.eq_def] at h
    simp at h
  | cons c ts ih =>
    intro t x y h
    have hndc : c ∉ ts := (List.nodup_cons.mp hnd).1
    have hndts : ts.Nodup := (List.nodup_cons.mp hnd).2
    cases ho : o c with
    | error e =>
      have hT : (loadTables o tf (c :: ts)).1
          = TraceEvent.beginTx c ::
              ((if tf then [TraceEvent.truncate c] else []) ++
                [TraceEvent.rollbackTx c]) := by
        rw [loadTables.eq_def]
        simp [ho]
      rw [hT] at h ⊢
      cases tf with
      | false =>
        simp only [Bool.false_eq_true, if_false, List.nil_append] at h ⊢
        cases x with
        | nil => simp at h
        | cons e1 x1 =>
          simp only [List.cons_append, List.cons.injEq] at h
          cases x1 with
          | nil =>
            simp only [List.nil_append, List.cons.injEq] at h
            obtain ⟨-, ht, hy⟩ := h
            have htc : t = c := by
              have := ht
              simp at this
              exact this.symm
            subst htc
            refine ⟨hy.symm, by simp, ?_⟩
            intro t2 ht2
            right
            simp [ht2]
          | cons e2 x2 => simp at h
      | true =>
        simp only [if_true, List.cons_append, List.nil_append] at h ⊢
        cases x with
        | nil => simp at h
        | cons e1 x1 =>
          simp only [List.cons_append, List.cons.injEq] at h
          cases x1 with
          | nil => simp at h
          | cons e2 x2 =>
            simp only [List.cons_append, List.cons.injEq] at h
            cases x2 with
            | nil =>
              simp only [List.nil_append, List.cons.injEq] at h
              obtain ⟨-, -, ht, hy⟩ := h
              have htc : t = c := by
                have := ht
                simp at this
                exact this.symm
              subst htc
              refine ⟨hy.symm, by simp, ?_⟩
              intro t2 ht2
              right
              simp [ht2]
            | cons e3 x3 => simp at h
    | ok n =>
      have hT : (loadTables o tf (c :: ts)).1
          = TraceEvent.beginTx c ::
              ((if tf then [TraceEvent.truncate c] else []) ++
                (TraceEvent.copy c n :: TraceEvent.commitTx c ::
                  (loadTables o tf ts).1)) := by
        rw [loadTables.eq_def]
        simp [ho]
      rw [hT] at h ⊢
      cases tf with
      | false =>
        simp only [Bool.false_eq_true, if_false, List.nil_append] at h ⊢
        obtain ⟨x2, hx, htr⟩ := block_decomp (TraceEvent.rollbackTx t)
          [TraceEvent.beginTx c, TraceEvent.copy c n, TraceEvent.commitTx c]
          (loadTables o false ts).1 x y
          (by intro e2 he2; simp at he2; rcases he2 with rfl | rfl | rfl <;> simp)
          (by simpa using h)
        obtain ⟨hy, hnc, hall⟩ := ih hndts t x2 y htr
        have htin : TraceEvent.rollbackTx t ∈ (loadTables o false ts).1 := by
          rw [htr]; simp
        have htts : t ∈ ts := mem_loadTables_tableOf o false ts _ htin
        have htc : t ≠ c := fun he => hndc (he ▸ htts)
        refine ⟨hy, ?_, ?_⟩
        · simp [hnc, htc]
        · intro t2 ht2
          by_cases ht2c : t2 = c
          · subst ht2c
            left
            simp
          · rcases hall t2 ht2 with hc | hnb
            · left
              simp [hc]
            · right
              simp [hnb, Ne.symm ht2c, ht2c]
      | true =>
        simp only [if_true, List.cons_append, List.nil_append] at h ⊢
        obtain ⟨x2, hx, htr⟩ := block_decomp (TraceEvent.rollbackTx t)
          [TraceEvent.beginTx c, TraceEvent.truncate c, TraceEvent.copy c n,
           TraceEvent.commitTx c]
          (loadTables o true ts).1 x y
          (by
            intro e2 he2
            simp at he2
            rcases he2 with rfl | rfl | rfl | rfl <;> simp)
          (by simpa using h)
        obtain ⟨hy, hnc, hall⟩ := ih hndts t x2 y htr
        have htin : TraceEvent.rollbackTx t ∈ (loadTables o true ts).1 := by
          rw [htr]; simp
        have htts : t ∈ ts := mem_loadTables_tableOf o true ts _ htin
        have htc : t ≠ c := fun he => hndc (he ▸ htts)
        refine ⟨hy, ?_, ?_⟩
        · simp [hnc, htc]
        · intro t2 ht2
          by_cases ht2c : t2 = c
          · subst ht2c
            left
            simp
          · rcases hall t2 ht2 with hc | hnb
            · left
              simp [hc]
            · right
              simp [hnb, Ne.symm ht2c, ht2c]

/-- **C7.** In every run of the loader, tables are loaded in the strict
foreign-key dependency order of `TPCH_TABLES`: `nation`'s transaction
never begins before `region`'s commits, `orders` never before
`customer`'s, and `lineitem` never before the commits of `orders`,
`part` and `supplier`.  Each table is loaded in its own transaction: a
rollback can only be the final event of the run, the rolled-back table
is never committed, and every other table was either fully committed or
never started — a mid-table failure rolls back only that table. -/
theorem C7_loader_fk_order_and_tx (dirExists : Bool) (present : String → Bool)
    (o : CopyOutcome) (truncFlag : Bool) :
    occursBefore (TraceEvent.commitTx "region") (TraceEvent.beginTx "nation")
      (load_tpch_data dirExists present o truncFlag).1 ∧
    occursBefore (TraceEvent.commitTx "customer") (TraceEvent.beginTx "orders")
      (load_tpch_data dirExists present o truncFlag).1 ∧
    occursBefore (TraceEvent.commitTx "orders") (TraceEvent.beginTx "lineitem")
      (load_tpch_data dirExists present o truncFlag).1 ∧
    occursBefore (TraceEvent.commitTx "part") (TraceEvent.beginTx "lineitem")
      (load_tpch_data dirExists present o truncFlag).1 ∧
    occursBefore (TraceEvent.commitTx "supplier") (TraceEvent.beginTx "lineitem")
      (load_tpch_data dirExists present o truncFlag).1 ∧
    (∀ t x y, (load_tpch_data dirExists present o truncFlag).1
        = x ++ TraceEvent.rollbackTx t :: y →
      y = [] ∧
      TraceEvent.commitTx t ∉ (load_tpch_data dirExists present o truncFlag).1 ∧
      ∀ t2, t2 ≠ t →
        (TraceEvent.commitTx t2 ∈ (load_tpch_data dirExists present o truncFlag).1 ∨
         TraceEvent.beginTx t2 ∉ (load_tpch_data dirExists present o truncFlag).1)) := by
  have key : (load_tpch_data dirExists present o truncFlag).1 = [] ∨
      (load_tpch_data dirExists present o truncFlag).1
        = (loadTables o truncFlag TPCH_TABLES).1 := by
    unfold load_tpch_data
    cases dirExists with
    | false => left; rfl
    | true =>
      by_cases hm : (TPCH_TABLES.filter (fun t => !(present t))) = []
      · right
        rw [if_neg (by simp), if_neg (fun hh => hh hm)]
      · left
        rw [if_neg (by simp), if_pos hm]
  rcases key with hk | hk <;> rw [hk]
  · refine ⟨?_, ?_, ?_, ?_, ?_, ?_⟩
    · intro x y h; simp at h
    · intro x y h; simp at h
    · intro x y h; simp at h
    · intro x y h; simp at h
    · intro x y h; simp at h
    · intro t x y h; simp at h
  · refine ⟨?_, ?_, ?_, ?_, ?_,
      loadTables_rollback o truncFlag TPCH_TABLES (by decide)⟩
    · exact loadTables_commit_before o truncFlag [] "region"
        ["nation", "part", "supplier", "customer", "partsupp", "orders",
         "lineitem"] "nation" (by decide) (by decide) (by decide)
    · exact loadTables_commit_before o truncFlag
        ["region", "nation", "part", "supplier"] "customer"
        ["partsupp", "orders", "lineitem"] "orders"
        (by decide) (by decide) (by decide)
    · exact loadTables_commit_before o truncFlag
        ["region", "nation", "part", "supplier", "customer", "partsupp"]
        "orders" ["lineitem"] "lineitem" (by decide) (by decide) (by decide)
    · exact loadTables_commit_before o truncFlag
        ["region", "nation"] "part"
        ["supplier", "customer", "partsupp", "orders", "lineitem"] "lineitem"
        (by decide) (by decide) (by decide)
    · exact loadTables_commit_before o truncFlag
        ["region", "nation", "part"] "supplier"
        ["customer", "partsupp", "orders", "lineitem"] "lineitem"
        (by decide) (by decide) (by decide)

/-- Concrete instance of `C7_loader_fk_order_and_tx`: a run whose `COPY`
fails on `part`; `region`'s commit precedes `nation`'s begin in the
trace, and the failed `part` transaction is never committed. -/
theorem C7_loader_fk_order_and_tx_witness :
    (TraceEvent.commitTx "region" ∈
      [TraceEvent.beginTx "region", TraceEvent.copy "region" 1,
       TraceEvent.commitTx "region"]) ∧
    TraceEvent.commitTx "part" ∉
      (load_tpch_data true (fun _ => true)
        (fun t => if t = "part" then Except.error "disk full" else Except.ok 1)
        false).1 := by
  constructor
  · exact (C7_loader_fk_order_and_tx true (fun _ => true)
      (fun t => if t = "part" then Except.error "disk full" else Except.ok 1)
      false).1
      [TraceEvent.beginTx "region", TraceEvent.copy "region" 1,
       TraceEvent.commitTx "region"]
      [TraceEvent.copy "nation" 1, TraceEvent.commitTx "nation",
       TraceEvent.beginTx "part", TraceEvent.rollbackTx "part"]
      (by decide)
  · exact ((C7_loader_fk_order_and_tx true (fun _ => true)
      (fun t => if t = "part" then Except.error "disk full" else Except.ok 1)
      false).2.2.2.2.2 "part"
      [TraceEvent.beginTx "region", TraceEvent.copy "region" 1,
       TraceEvent.commitTx "region", TraceEvent.beginTx "nation",
       TraceEvent.copy "nation" 1, TraceEvent.commitTx "nation",
       TraceEvent.beginTx "part"] []
      (by decide)).2.1

/-! ## `benchmark/pipeline.py`: `step_9_archive_session`

The archiver's world is the two working directories (lists of
`(file name, contents)`; `none` when the directory does not exist), the
report tree (abstract content `R`), and the session directory's three
subtrees.  The function returns the ordered list of file-system
operations it performs together with the resulting state. -/

inductive FsOp
  | mkdirSessionQueries
  | mkdirSessionAnswers
  | moveQuery (name : String)
  | moveAnswer (name : String)
  | copyReportTree
  | removeReportDir
  | removeQueriesDir
  | removeAnswersDir
deriving DecidableEq

/-- Kernel-computable suffix test used to model the `*.sql` / `*.csv`
globs. -/
def endsWithL (s suffix : String) : Bool := suffix.data.isSuffixOf s.data

structure ArchiveFs (R : Type) where
  queries : Option (List (String × String))
  answers : Option (List (String × String))
  report : Option R
  sessionQueries : Option (List (String × String))
  sessionAnswers : Option (List (String × String))
  sessionReport : Option R
deriving DecidableEq

def step_9_archive_session {R : Type} (fs0 : ArchiveFs R) :
    List FsOp × ArchiveFs R :=
  -- query_files = list(queries_dir.glob("*.sql")) (empty when absent)
  let qf := (fs0.queries.getD []).filter (fun f => endsWithL f.1 ".sql")
  -- answer_files = list(answers_dir.glob("*.csv"))
  let af := (fs0.answers.getD []).filter (fun f => endsWithL f.1 ".csv")
  -- session_queries.mkdir(parents, exist_ok); session_answers.mkdir(...)
  let fs1 : ArchiveFs R :=
    { fs0 with
      sessionQueries := some (fs0.sessionQueries.getD []),
      sessionAnswers := some (fs0.sessionAnswers.getD []) }
  -- shutil.move of each globbed file: gone from the source, added to
  -- the session subdirectory
  let fs2 : ArchiveFs R :=
    { fs1 with
      queries := fs1.queries.map (fun d =>
        d.filter (fun f => !(endsWithL f.1 ".sql"))),
      sessionQueries := some (fs1.sessionQueries.getD [] ++ qf),
      answers := fs1.answers.map (fun d =>
        d.filter (fun f => !(endsWithL f.1 ".csv"))),
      sessionAnswers := some (fs1.sessionAnswers.getD [] ++ af) }
  -- if report_dir.exists(): copytree(report, session_report,
  -- dirs_exist_ok=True) then rmtree(report)
  let fs3 : ArchiveFs R :=
    match fs2.report with
    | some rep => { fs2 with sessionReport := some rep, report := none }
    | none => fs2
  -- for d in [queries_dir, answers_dir]: if d.exists(): rmtree(d)
  let fs4 : ArchiveFs R := { fs3 with queries := none, answers := none }
  ([FsOp.mkdirSessionQueries, FsOp.mkdirSessionAnswers]
     ++ qf.map (fun f => FsOp.moveQuery f.1)
     ++ af.map (fun f => FsOp.moveAnswer f.1)
     ++ (match fs2.report with
         | some _ => [FsOp.copyReportTree, FsOp.removeReportDir]
         | none => [])
     ++ (match fs3.queries with
         | some _ => [FsOp.removeQueriesDir]
         | none => [])
     ++ (match fs3.answers with
         | some _ => [FsOp.removeAnswersDir]
         | none => []),
   fs4)

/-- **C8.** After stage 9, the session directory holds the generated SQL
files, the generated answer CSVs and the report tree, while the three
working directories no longer exist — archival is destructive move
semantics, not copy.  The operation trace shows the report subtree is
first copied and then the original deleted, and the working directories
are removed afterwards. -/
theorem C8_archival_destructive {R : Type} (fs : ArchiveFs R)
    (qd ad : List (String × String)) (rep : R)
    (hq : fs.queries = some qd) (ha : fs.answers = some ad)
    (hr : fs.report = some rep) :
    (step_9_archive_session fs).2.sessionQueries
      = some (fs.sessionQueries.getD []
          ++ qd.filter (fun f => endsWithL f.1 ".sql")) ∧
    (step_9_archive_session fs).2.sessionAnswers
      = some (fs.sessionAnswers.getD []
          ++ ad.filter (fun f => endsWithL f.1 ".csv")) ∧
    (step_9_archive_session fs).2.sessionReport = some rep ∧
    (step_9_archive_session fs).2.queries = none ∧
    (step_9_archive_session fs).2.answers = none ∧
    (step_9_archive_session fs).2.report = none ∧
    (step_9_archive_session fs).1
      = [FsOp.mkdirSessionQueries, FsOp.mkdirSessionAnswers]
        ++ (qd.filter (fun f => endsWithL f.1 ".sql")).map
            (fun f => FsOp.moveQuery f.1)
        ++ (ad.filter (fun f => endsWithL f.1 ".csv")).map
            (fun f => FsOp.moveAnswer f.1)
        ++ [FsOp.copyReportTree, FsOp.removeReportDir]
        ++ [FsOp.removeQueriesDir] ++ [FsOp.removeAnswersDir] := by
  unfold step_9_archive_session
  simp [hq, ha, hr]

/-- Concrete instance of `C8_archival_destructive`: a working tree with
one generated query (plus a stray non-SQL file), one answer CSV and a
report; afterwards the session holds them and the working directories
are gone. -/
theorem C8_archival_destructive_witness :
    (step_9_archive_session
      (ArchiveFs.mk (R := String)
        (some [("q1.sql", "SELECT 1"), ("junk.txt", "x")])
        (some [("q1.csv", "one\n1")])
        (some "summary")
        none none none)).2.sessionQueries = some [("q1.sql", "SELECT 1")] ∧
    (step_9_archive_session
      (ArchiveFs.mk (R := String)
        (some [("q1.sql", "SELECT 1"), ("junk.txt", "x")])
        (some [("q1.csv", "one\n1")])
        (some "summary")
        none none none)).2.queries = none := by
  have h := C8_archival_destructive
    (ArchiveFs.mk (R := String)
      (some [("q1.sql", "SELECT 1"), ("junk.txt", "x")])
      (some [("q1.csv", "one\n1")])
      (some "summary")
      none none none)
    [("q1.sql", "SELECT 1"), ("junk.txt", "x")]
    [("q1.csv", "one\n1")]
    "summary" rfl rfl rfl
  exact ⟨h.1.trans (by decide), h.2.2.2.1⟩

/-! ## `benchmark/pipeline.py`: `step_6_run_core_benchmark`

The business-question extraction
`re.search(r'# Business Question:\s*\n\s*"([^"]+)"', content)`: the
literal header, a whitespace run containing at least one newline, then a
double-quoted non-empty quote-free span, captured as group 1.  A
question file is `(stem, contents)`; the model call is abstracted as a
function from the question text to the terminal chunk observed by the
loop (`done` with its extracted SQL, or an error). -/

def bqHeader : List Char := ("# Business Question:").data

/-- The question regex matched at one position.  The greedy `\s*\n\s*`
matches here iff the maximal whitespace run after the header contains a
newline and is followed by `"`, and `([^"]+)"` captures the nonempty
text up to the closing quote. -/
def bqMatchAt (s : List Char) : Option (List Char) :=
  if bqHeader.isPrefixOf s then
    let rest := s.drop bqHeader.length
    let ws := rest.takeWhile isPySpace
    let rest2 := rest.dropWhile isPySpace
    if ws.contains '\n' then
      match rest2 with
      | '"' :: rest3 =>
        let q := rest3.takeWhile (fun c => c != '"')
        if q.isEmpty then none
        else
          match rest3.drop q.length with
          | '"' :: _ => some q
          | _ => none
      | _ => none
    else none
  else none

def bqSearch : List Char → Option (List Char)
  | [] => none
  | c :: cs =>
    match bqMatchAt (c :: cs) with
    | some q => some q
    | none => bqSearch cs

/-- The terminal chunk of one model invocation in stage 6. -/
inductive LlmOutcome
  | done (sql : Option String)
  | failed (msg : String)

/-- The stage-6 loop body for one question file: skip when the pattern
is absent; otherwise invoke the model and write `stem.sql` when a
nonempty SQL string came back. -/
def processItem (llm : String → LlmOutcome) (f : String × String) :
    List (String × String) :=
  match bqSearch f.2.data with
  | none => []
  | some q =>
    match llm (String.mk q) with
    | .done (some sql) => if sql.isEmpty then [] else [(f.1 ++ ".sql", sql)]
    | .done none => []
    | .failed _ => []

/-- `step_6_run_core_benchmark`: the generated `.sql` files written,
over the non-cached question files. -/
def step_6_run_core_benchmark (llm : String → LlmOutcome)
    (existing : List String) (files : List (String × String)) :
    List (String × String) :=
  (files.filter (fun f => !(existing.contains f.1))).flatMap (processItem llm)

theorem bqMatchAt_cons_none (x : Char) (l : List Char) (hx : x ≠ '#') :
    bqMatchAt (x :: l) = none := by
  have hpre : bqHeader.isPrefixOf (x :: l) = false :=
    isPrefixOf_cons_false '#' x _ l (fun he => hx he.symm)
  simp [bqMatchAt, hpre]

theorem bqSearch_append (pre rest : List Char) (h : '#' ∉ pre) :
    bqSearch (pre ++ rest) = bqSearch rest := by
  induction pre with
  | nil => rfl
  | cons x t ih =>
    have hx : x ≠ '#' := fun hxe => h (hxe ▸ List.mem_cons_self x t)
    have ht : '#' ∉ t := fun hmem => h (List.mem_cons_of_mem x hmem)
    simpa [bqSearch, bqMatchAt_cons_none x _ hx] using ih ht

theorem dropWhile_all_nil (p : Char → Bool) (l : List Char)
    (h : ∀ c ∈ l, p c = true) : l.dropWhile p = [] := by
  induction l with
  | nil => rfl
  | cons c t ih =>
    rw [List.dropWhile_cons_of_pos (h c (List.mem_cons_self _ _))]
    exact ih (fun d hd => h d (List.mem_cons_of_mem _ hd))

/-- The question regex matched at the header position, on a decomposed
matching input. -/
theorem bqMatchAt_decomp (ws q post : List Char)
    (hws : ∀ c ∈ ws, isPySpace c = true) (hnl : '\n' ∈ ws)
    (hq : q ≠ []) (hnq : '"' ∉ q) :
    bqMatchAt (bqHeader ++ (ws ++ ('"' :: (q ++ '"' :: post)))) = some q := by
  have hpre : bqHeader.isPrefixOf (bqHeader ++ (ws ++ ('"' :: (q ++ '"' :: post))))
      = true := isPrefixOf_append_self _ _
  have hdrop : (bqHeader ++ (ws ++ ('"' :: (q ++ '"' :: post)))).drop
      bqHeader.length = ws ++ ('"' :: (q ++ '"' :: post)) := List.drop_left _ _
  have htw : (ws ++ ('"' :: (q ++ '"' :: post))).takeWhile isPySpace = ws := by
    rw [List.takeWhile_append]
    rw [takeWhile_all isPySpace ws hws]
    rw [if_pos rfl]
    rw [List.takeWhile_cons_of_neg (by decide)]
    simp
  have hdw : (ws ++ ('"' :: (q ++ '"' :: post))).dropWhile isPySpace
      = '"' :: (q ++ '"' :: post) := by
    rw [List.dropWhile_append]
    rw [dropWhile_all_nil isPySpace ws hws]
    simp only [List.isEmpty_nil, if_true]
    rw [List.dropWhile_cons_of_neg (by decide)]
  have hcontains : ws.contains '\n' = true := by
    simpa [List.contains, List.elem_iff] using hnl
  have htq : (q ++ '"' :: post).takeWhile (fun c => c != '"') = q := by
    rw [List.takeWhile_append]
    rw [takeWhile_all _ q (fun c hc => by
      simp only [bne_iff_ne, ne_eq]
      exact fun he => hnq (he ▸ hc))]
    rw [if_pos rfl]
    rw [List.takeWhile_cons_of_neg (by decide)]
    simp
  have hqE : q.isEmpty = false := by
    rw [List.isEmpty_eq_false]
    exact hq
  have hdq : (q ++ '"' :: post).drop q.length = '"' :: post := List.drop_left _ _
  unfold bqMatchAt
  rw [if_pos hpre]
  simp only [hdrop, htw, hdw, hcontains, if_true]
  simp only [htq, hqE, Bool.false_eq_true, if_false, hdq]

theorem bqSearch_eq_of_match (s q : List Char) (h : bqMatchAt s = some q)
    (hs : s ≠ []) : bqSearch s = some q := by
  cases s with
  | nil => exact absurd rfl hs
  | cons c cs => simp [bqSearch, h]

/-- **C9.** For every question file whose content contains the fixed
header `# Business Question:` followed (on the next line) by a
double-quoted question string, stage 6's extraction yields exactly the
question text, with the surrounding quotes and the whitespace between
header and quote excluded; when the pattern is absent the item is
skipped — removing it from the input leaves the stage's output on all
other items unchanged, so the stage is not aborted. -/
theorem C9_question_extraction_and_skip :
    (∀ pre ws q post : List Char,
      '#' ∉ pre →
      (∀ c ∈ ws, isPySpace c = true) → '\n' ∈ ws →
      q ≠ [] → '"' ∉ q →
      bqSearch (pre ++ (bqHeader ++ (ws ++ ('"' :: (q ++ '"' :: post)))))
        = some q) ∧
    (∀ (llm : String → LlmOutcome) (existing : List String)
        (files1 files2 : List (String × String)) (f : String × String),
      bqSearch f.2.data = none →
      step_6_run_core_benchmark llm existing (files1 ++ f :: files2)
        = step_6_run_core_benchmark llm existing (files1 ++ files2)) := by
  constructor
  · intro pre ws q post hpre hws hnl hq hnq
    rw [bqSearch_append pre _ hpre]
    exact bqSearch_eq_of_match _ _ (bqMatchAt_decomp ws q post hws hnl hq hnq)
      (by simp [bqHeader])
  · intro llm existing files1 files2 f hq
    unfold step_6_run_core_benchmark
    rw [List.filter_append, List.filter_append, List.filter_cons]
    by_cases hc : (!(existing.contains f.1)) = true
    · rw [if_pos hc]
      simp [List.flatMap_append, List.flatMap_cons, processItem, hq]
    · rw [if_neg hc]

/-- Concrete instance of `C9_question_extraction_and_skip`: the round
trip of the spec's example file, and a pattern-free file being skipped
without disturbing the rest of the batch. -/
theorem C9_question_extraction_and_skip_witness :
    bqSearch (("# Business Question:\n\"What are total sales by region?\"").data)
      = some (("What are total sales by region?").data) ∧
    step_6_run_core_benchmark (fun _ => LlmOutcome.done (some "SELECT 1")) []
        [("q1", "no header here"), ("q2", "# Business Question:\n\"Total?\"")]
      = step_6_run_core_benchmark (fun _ => LlmOutcome.done (some "SELECT 1")) []
        [("q2", "# Business Question:\n\"Total?\"")] := by
  constructor
  · have h := C9_question_extraction_and_skip.1 []
      (("\n").data) (("What are total sales by region?").data) []
      (by decide) (by decide) (by decide) (by decide) (by decide)
    exact h.trans (by decide)
  · exact C9_question_extraction_and_skip.2
      (fun _ => LlmOutcome.done (some "SELECT 1")) [] []
      [("q2", "# Business Question:\n\"Total?\"")]
      ("q1", "no header here") (by decide)

end LlmTextToQuery
